import Mathlib

/-!
Shallow embedding of the console stock-market simulator (`src/main.cpp`,
namespace `StockSim`).  Prices and the cash balance are modelled as exact
rationals (`ℚ`), quantities as integers (`ℤ`, the C++ `int`).  The
pseudo-random draw `(rand() % 201) - 100` of `updatePrice` is passed in as an
explicit integer parameter, and console messages are modelled as
`Option String` results carrying the exact text the program prints.
-/

set_option autoImplicit false

/-- State of a `SimulatedStock` (which carries the `Stock` base fields plus
the `priceHistory` vector). -/
structure SimStock where
  id : Int
  name : String
  currentPrice : ℚ
  riskLevel : String
  priceHistory : List ℚ
  deriving DecidableEq

/-- The `SimulatedStock` constructor: stores the fields and seeds the price
history with the initial price (`priceHistory.push_back(price)`). -/
def SimStock.make (id : Int) (name : String) (price : ℚ) (risk : String) : SimStock :=
  { id := id, name := name, currentPrice := price, riskLevel := risk,
    priceHistory := [price] }

/-- The volatility coefficient chosen by `SimulatedStock::updatePrice`:
`(riskLevel == "High") ? 0.2 : (riskLevel == "Medium") ? 0.1 : 0.05`. -/
def volatilityOf (risk : String) : ℚ :=
  if risk = "High" then (0.2 : ℚ) else if risk = "Medium" then (0.1 : ℚ) else (0.05 : ℚ)

/-- `SimulatedStock::updatePrice`, with the pseudo-random integer
`r = (rand() % 201) - 100` passed as a parameter:
`change = r / 100.0 * volatility * currentPrice`, the price is increased by
`change`, floored at `1`, and the new price is appended to the history. -/
def SimStock.updatePrice (s : SimStock) (r : Int) : SimStock :=
  let change : ℚ := (r : ℚ) / 100 * volatilityOf s.riskLevel * s.currentPrice
  let moved : ℚ := s.currentPrice + change
  let newPrice : ℚ := if moved < 1 then 1 else moved
  { s with currentPrice := newPrice, priceHistory := s.priceHistory ++ [newPrice] }

/-- Iterated `updatePrice`, one call per pseudo-random draw in the list. -/
def SimStock.updateMany (s : SimStock) : List Int → SimStock
  | [] => s
  | r :: rs => (s.updatePrice r).updateMany rs

/-- State of a `UserOwnedStock`: the `SimulatedStock` fields plus the owned
`quantity`. -/
structure UserOwnedStock where
  id : Int
  name : String
  currentPrice : ℚ
  riskLevel : String
  priceHistory : List ℚ
  quantity : Int
  deriving DecidableEq

/-- The `UserOwnedStock` constructor: snapshots the base stock's id, name,
current price and risk level; the fresh `SimulatedStock` sub-object seeds its
own history with that snapshot price. -/
def UserOwnedStock.ofStock (base : SimStock) (qty : Int) : UserOwnedStock :=
  { id := base.id, name := base.name, currentPrice := base.currentPrice,
    riskLevel := base.riskLevel, priceHistory := [base.currentPrice],
    quantity := qty }

/-- `UserOwnedStock::buy`: `quantity += qty` with no validation. -/
def UserOwnedStock.buy (u : UserOwnedStock) (qty : Int) : UserOwnedStock :=
  { u with quantity := u.quantity + qty }

/-- `UserOwnedStock::updatePrice` (inherited from `SimulatedStock`), with the
pseudo-random draw as a parameter. -/
def UserOwnedStock.updatePrice (u : UserOwnedStock) (r : Int) : UserOwnedStock :=
  let change : ℚ := (r : ℚ) / 100 * volatilityOf u.riskLevel * u.currentPrice
  let moved : ℚ := u.currentPrice + change
  let newPrice : ℚ := if moved < 1 then 1 else moved
  { u with currentPrice := newPrice, priceHistory := u.priceHistory ++ [newPrice] }

/-- State of a `UserPortfolio`: cash balance and the `ownedStocks` vector. -/
structure UserPortfolio where
  balance : ℚ
  ownedStocks : List UserOwnedStock
  deriving DecidableEq

/-- The portfolio the program starts with: `UserPortfolio user;` uses the
default initial balance `3000.0` and no owned stocks. -/
def initialPortfolio : UserPortfolio :=
  { balance := 3000, ownedStocks := [] }

/-- The owned-stocks loop of `UserPortfolio::buyStock` after the balance was
debited: the first stock whose name equals the bought stock's name gets
`buy(qty)`; if none matches, a fresh `UserOwnedStock` is appended. -/
def buyInto (l : List UserOwnedStock) (s : SimStock) (qty : Int) : List UserOwnedStock :=
  match l with
  | [] => [UserOwnedStock.ofStock s qty]
  | u :: rest => if u.name = s.name then u.buy qty :: rest else u :: buyInto rest s qty

/-- `UserPortfolio::buyStock`: rejects with "Insufficient balance." when
`total > balance`, otherwise debits `total = price * qty` and merges or
appends the position. -/
def UserPortfolio.buyStock (p : UserPortfolio) (s : SimStock) (qty : Int) :
    UserPortfolio × Option String :=
  let total : ℚ := s.currentPrice * (qty : ℚ)
  if p.balance < total then (p, some "Insufficient balance.")
  else ({ balance := p.balance - total, ownedStocks := buyInto p.ownedStocks s qty }, none)

/-- The loop of `UserPortfolio::sellStock`: finds the first owned stock with
the given name; if its quantity covers `qty`, yields the updated list (with
the position erased when its quantity reaches 0) and the income credited,
else the corresponding error message.  Returns
(new list, income, message). -/
def sellFrom (l : List UserOwnedStock) (stockName : String) (qty : Int) :
    List UserOwnedStock × ℚ × Option String :=
  match l with
  | [] => ([], 0, some "Stock not found in portfolio.")
  | u :: rest =>
    if u.name = stockName then
      if qty ≤ u.quantity then
        let income : ℚ := (qty : ℚ) * u.currentPrice
        let sold : UserOwnedStock := { u with quantity := u.quantity - qty }
        if sold.quantity = 0 then (rest, income, none) else (sold :: rest, income, none)
      else (u :: rest, 0, some "Not enough quantity.")
    else
      let r := sellFrom rest stockName qty
      (u :: r.1, r.2.1, r.2.2)

/-- `UserPortfolio::sellStock`: runs the loop and credits the income. -/
def UserPortfolio.sellStock (p : UserPortfolio) (stockName : String) (qty : Int) :
    UserPortfolio × Option String :=
  let r := sellFrom p.ownedStocks stockName qty
  ({ balance := p.balance + r.2.1, ownedStocks := r.1 }, r.2.2)

/-- The loop of `UserPortfolio::updatePrices`: each owned stock takes its own
pseudo-random draw from the stream `draws`, in order. -/
def updateAll (l : List UserOwnedStock) (draws : Nat → Int) : List UserOwnedStock :=
  match l with
  | [] => []
  | u :: rest => u.updatePrice (draws 0) :: updateAll rest (fun n => draws (n + 1))

/-- `UserPortfolio::updatePrices`: updates every owned stock's price. -/
def UserPortfolio.updatePrices (p : UserPortfolio) (draws : Nat → Int) : UserPortfolio :=
  { p with ownedStocks := updateAll p.ownedStocks draws }

/-- The buy branch of the menu (`case 2` of `main`): after reading `id` and
`qty`, buys `market[id - 1]` when `id >= 1 && id <= market.size()`, else
prints "Invalid ID." and leaves the portfolio alone.  (For `id < 1` the
`&&` short-circuits before the signed/unsigned comparison, so the guard is
exactly `1 ≤ id ∧ id ≤ market.length`.) -/
def marketBuy (market : List SimStock) (port : UserPortfolio) (id qty : Int) :
    UserPortfolio × Option String :=
  if 1 ≤ id ∧ id ≤ (market.length : Int) then
    match market.get? (id - 1).toNat with
    | some s => port.buyStock s qty
    | none => (port, none)
  else (port, some "Invalid ID.")

/-- The market entry `new SimulatedStock(1, "Apple", 211.0, "Medium")`. -/
def apple : SimStock := SimStock.make 1 "Apple" 211 "Medium"

/-- Portfolio states reachable from the program's initial portfolio by the
three mutating operations. -/
inductive Reachable : UserPortfolio → Prop
  | init : Reachable initialPortfolio
  | buy {p : UserPortfolio} (s : SimStock) (qty : Int) :
      Reachable p → Reachable (p.buyStock s qty).1
  | sell {p : UserPortfolio} (stockName : String) (qty : Int) :
      Reachable p → Reachable (p.sellStock stockName qty).1
  | update {p : UserPortfolio} (draws : Nat → Int) :
      Reachable p → Reachable (p.updatePrices draws)

/-! ## Helper lemmas about one `updatePrice` step -/

/-- One update step never leaves the price below 1. -/
theorem updatePrice_one_le (s : SimStock) (r : Int) :
    1 ≤ (s.updatePrice r).currentPrice := by
  unfold SimStock.updatePrice
  dsimp only
  split
  · exact le_refl 1
  · exact le_of_not_lt (by assumption)

/-- One update step appends exactly one entry to the history. -/
theorem updatePrice_history_length (s : SimStock) (r : Int) :
    (s.updatePrice r).priceHistory.length = s.priceHistory.length + 1 := by
  unfold SimStock.updatePrice
  simp

/-- Iterated updates only grow the history by the number of draws. -/
theorem updateMany_history_length (s : SimStock) (rs : List Int) :
    (s.updateMany rs).priceHistory.length = s.priceHistory.length + rs.length := by
  induction rs generalizing s with
  | nil => simp [SimStock.updateMany]
  | cons r rs ih =>
      simp [SimStock.updateMany, ih, updatePrice_history_length]
      omega

/-- C4: For every instrument, after any number of updatePrice (advanceOneDay)
calls starting from an initial price ≥ 1.0, the instrument's current price is
≥ 1.0. -/
theorem price_lower_bound (s : SimStock) (rs : List Int)
    (h : 1 ≤ s.currentPrice) :
    1 ≤ (s.updateMany rs).currentPrice := by
  induction rs generalizing s with
  | nil => exact h
  | cons r rs ih => exact ih (s.updatePrice r) (updatePrice_one_le s r)

/-- Witness for `price_lower_bound`: a concrete stock run through two
concrete daily draws. -/
theorem price_lower_bound_witness :
    1 ≤ ((SimStock.make 1 "Apple" 211 "Medium").updateMany [-100, 37]).currentPrice :=
  price_lower_bound (SimStock.make 1 "Apple" 211 "Medium") [-100, 37]
    (by norm_num [SimStock.make])

/-- C5: after exactly N updatePrice (advanceOneDay) calls since construction,
the price history has length N + 1 (seeded with the initial price, one entry
appended per call). -/
theorem history_length_spec (id : Int) (name : String) (price : ℚ) (risk : String)
    (rs : List Int) :
    ((SimStock.make id name price risk).updateMany rs).priceHistory.length
      = rs.length + 1 := by
  rw [updateMany_history_length]
  simp [SimStock.make]
  omega

/-- C6: one updatePrice step with pseudo-random draw `r` sets the price to
`old + (r/100) * v * old` clamped below at 1, where `v` is 0.20 for High,
0.10 for Medium and 0.05 otherwise, appends the new price to the history, and
changes no other field. -/
theorem updatePrice_step_spec (s : SimStock) (r : Int) :
    (s.updatePrice r).currentPrice
        = max 1 (s.currentPrice
            + (r : ℚ) / 100
              * (if s.riskLevel = "High" then 20 / 100
                 else if s.riskLevel = "Medium" then 10 / 100 else 5 / 100)
              * s.currentPrice) ∧
    (s.updatePrice r).priceHistory
        = s.priceHistory ++ [(s.updatePrice r).currentPrice] ∧
    (s.updatePrice r).id = s.id ∧
    (s.updatePrice r).name = s.name ∧
    (s.updatePrice r).riskLevel = s.riskLevel := by
  have hvol : volatilityOf s.riskLevel
      = (if s.riskLevel = "High" then 20 / 100
         else if s.riskLevel = "Medium" then 10 / 100 else 5 / 100 : ℚ) := by
    unfold volatilityOf
    norm_num
  refine ⟨?_, ?_, ?_, ?_, ?_⟩ <;>
    simp only [SimStock.updatePrice, hvol]
  · rcases lt_or_le (s.currentPrice
        + (r : ℚ) / 100
          * (if s.riskLevel = "High" then 20 / 100
             else if s.riskLevel = "Medium" then 10 / 100 else 5 / 100)
          * s.currentPrice) 1 with hlt | hle
    · rw [if_pos hlt, max_eq_left (le_of_lt hlt)]
    · rw [if_neg (not_lt.mpr hle), max_eq_right hle]

/-! ## Helper lemmas about the buy/sell loops -/

/-- When some owned stock matches the name, `buyStock`'s loop increments the
first match and leaves everything else alone. -/
theorem buyInto_found (pre post : List UserOwnedStock) (u : UserOwnedStock)
    (s : SimStock) (qty : Int)
    (hpre : ∀ v ∈ pre, v.name ≠ s.name) (hu : u.name = s.name) :
    buyInto (pre ++ u :: post) s qty = pre ++ u.buy qty :: post := by
  induction pre with
  | nil => simp [buyInto, hu]
  | cons v pre ih =>
      have hv : v.name ≠ s.name := hpre v (List.mem_cons_self v pre)
      simp only [List.cons_append, buyInto, if_neg hv, List.cons.injEq, true_and]
      exact ih fun w hw => hpre w (List.mem_cons_of_mem v hw)

/-- When no owned stock matches the name, `buyStock`'s loop appends a fresh
position. -/
theorem buyInto_notFound (l : List UserOwnedStock) (s : SimStock) (qty : Int)
    (h : ∀ v ∈ l, v.name ≠ s.name) :
    buyInto l s qty = l ++ [UserOwnedStock.ofStock s qty] := by
  induction l with
  | nil => rfl
  | cons v l ih =>
      have hv : v.name ≠ s.name := h v (List.mem_cons_self v l)
      simp only [buyInto, if_neg hv, List.cons_append, List.cons.injEq, true_and]
      exact ih fun w hw => h w (List.mem_cons_of_mem v hw)

/-- When no owned stock matches the name, `sellStock`'s loop reports
"Stock not found in portfolio." and does not touch the list. -/
theorem sellFrom_notFound (l : List UserOwnedStock) (stockName : String) (qty : Int)
    (h : ∀ v ∈ l, v.name ≠ stockName) :
    sellFrom l stockName qty = (l, 0, some "Stock not found in portfolio.") := by
  induction l with
  | nil => rfl
  | cons v l ih =>
      have hv : v.name ≠ stockName := h v (List.mem_cons_self v l)
      have hrest := ih fun w hw => h w (List.mem_cons_of_mem v hw)
      simp [sellFrom, hv, hrest]

/-- `sellStock`'s loop on the first matching position, fully unfolded. -/
theorem sellFrom_found (pre post : List UserOwnedStock) (u : UserOwnedStock)
    (stockName : String) (qty : Int)
    (hpre : ∀ v ∈ pre, v.name ≠ stockName) (hu : u.name = stockName) :
    sellFrom (pre ++ u :: post) stockName qty
      = if qty ≤ u.quantity then
          (pre ++ (if u.quantity - qty = 0 then post
                   else { u with quantity := u.quantity - qty } :: post),
           (qty : ℚ) * u.currentPrice, none)
        else (pre ++ u :: post, 0, some "Not enough quantity.") := by
  induction pre with
  | nil =>
      simp only [List.nil_append, sellFrom, if_pos hu]
      rcases le_or_lt qty u.quantity with hle | hlt
      · rw [if_pos hle, if_pos hle]
        rcases eq_or_ne (u.quantity - qty) 0 with h0 | h0
        · simp [h0]
        · simp [h0]
      · rw [if_neg (not_le.mpr hlt), if_neg (not_le.mpr hlt)]
  | cons v pre ih =>
      have hv : v.name ≠ stockName := hpre v (List.mem_cons_self v pre)
      have hrest := ih fun w hw => hpre w (List.mem_cons_of_mem v hw)
      simp only [List.cons_append, sellFrom, if_neg hv, List.append_eq, hrest]
      rcases le_or_lt qty u.quantity with hle | hlt
      · simp [hle]
      · simp [not_le.mpr hlt]

/-! ## C2: buyStock functional correctness -/

/-- C2: when `balance ≥ price * qty`, `buyStock` debits exactly
`price * qty` and either increments the first position with the matching
name by `qty` or appends a new position with quantity `qty`; when
`balance < price * qty` it rejects with "Insufficient balance." and changes
nothing.  The two concrete scenarios of the spec are included. -/
theorem buyStock_spec (p : UserPortfolio) (s : SimStock) (qty : Int) :
    (s.currentPrice * (qty : ℚ) ≤ p.balance →
       (p.buyStock s qty).2 = none ∧
       (p.buyStock s qty).1.balance = p.balance - s.currentPrice * (qty : ℚ) ∧
       (∀ pre u post, p.ownedStocks = pre ++ u :: post →
          (∀ v ∈ pre, v.name ≠ s.name) → u.name = s.name →
          (p.buyStock s qty).1.ownedStocks = pre ++ u.buy qty :: post) ∧
       ((∀ v ∈ p.ownedStocks, v.name ≠ s.name) →
          (p.buyStock s qty).1.ownedStocks
            = p.ownedStocks ++ [UserOwnedStock.ofStock s qty])) ∧
    (p.balance < s.currentPrice * (qty : ℚ) →
       p.buyStock s qty = (p, some "Insufficient balance.")) ∧
    (initialPortfolio.buyStock apple 2).1.balance = 2578 ∧
    (initialPortfolio.buyStock apple 2).1.ownedStocks.map UserOwnedStock.quantity
      = [2] ∧
    initialPortfolio.buyStock apple 100
      = (initialPortfolio, some "Insufficient balance.") := by
  refine ⟨?_, ?_, ?_, ?_, ?_⟩
  · intro h
    have hnot : ¬ p.balance < s.currentPrice * (qty : ℚ) := not_lt.mpr h
    refine ⟨?_, ?_, ?_, ?_⟩
    · simp [UserPortfolio.buyStock, hnot]
    · simp [UserPortfolio.buyStock, hnot]
    · intro pre u post hsplit hpre hu
      simp only [UserPortfolio.buyStock, if_neg hnot]
      rw [hsplit]
      exact buyInto_found pre post u s qty hpre hu
    · intro hnone
      simp only [UserPortfolio.buyStock, if_neg hnot]
      exact buyInto_notFound p.ownedStocks s qty hnone
  · intro h
    simp [UserPortfolio.buyStock, h]
  · norm_num [UserPortfolio.buyStock, initialPortfolio, apple, SimStock.make,
      buyInto]
  · norm_num [UserPortfolio.buyStock, initialPortfolio, apple, SimStock.make,
      buyInto, UserOwnedStock.ofStock]
  · norm_num [UserPortfolio.buyStock, initialPortfolio, apple, SimStock.make]

/-- Witness for `buyStock_spec`: both branches applied at the spec's concrete
scenario (balance 3000, price 211, quantities 2 and 100). -/
theorem buyStock_spec_witness :
    (initialPortfolio.buyStock apple 2).2 = none ∧
    initialPortfolio.buyStock apple 100
      = (initialPortfolio, some "Insufficient balance.") :=
  ⟨((buyStock_spec initialPortfolio apple 2).1
      (by norm_num [initialPortfolio, apple, SimStock.make])).1,
   (buyStock_spec initialPortfolio apple 100).2.1
      (by norm_num [initialPortfolio, apple, SimStock.make])⟩

/-! ## C3: sellStock functional correctness -/

/-- C3: selling `qty` from the first position with the requested name, of
quantity `Q` and current price `cp`: if `qty ≤ Q` the balance grows by
exactly `qty * cp` and the position's quantity becomes `Q - qty`, the
position being removed exactly when `Q - qty = 0`; if `qty > Q` nothing
changes and "Not enough quantity." is reported. -/
theorem sellStock_spec (p : UserPortfolio) (pre post : List UserOwnedStock)
    (u : UserOwnedStock) (stockName : String) (qty : Int)
    (hsplit : p.ownedStocks = pre ++ u :: post)
    (hpre : ∀ v ∈ pre, v.name ≠ stockName) (hu : u.name = stockName) :
    (qty ≤ u.quantity →
       (p.sellStock stockName qty).2 = none ∧
       (p.sellStock stockName qty).1.balance
         = p.balance + (qty : ℚ) * u.currentPrice ∧
       (p.sellStock stockName qty).1.ownedStocks
         = pre ++ (if u.quantity - qty = 0 then post
                   else { u with quantity := u.quantity - qty } :: post)) ∧
    (u.quantity < qty →
       p.sellStock stockName qty = (p, some "Not enough quantity.")) := by
  have hfound := sellFrom_found pre post u stockName qty hpre hu
  constructor
  · intro hle
    refine ⟨?_, ?_, ?_⟩ <;>
      simp [UserPortfolio.sellStock, hsplit, hfound, if_pos hle]
  · intro hlt
    have hrw : sellFrom (pre ++ u :: post) stockName qty
        = (pre ++ u :: post, 0, some "Not enough quantity.") := by
      rw [hfound, if_neg (not_le.mpr hlt)]
    simp only [UserPortfolio.sellStock, hsplit, hrw, add_zero]
    rw [← hsplit]

/-- Witness for `sellStock_spec`: a one-position portfolio (5 Apple shares at
price 211, balance 100); selling 2 succeeds, selling 9 is rejected. -/
theorem sellStock_spec_witness :
    ((UserPortfolio.mk 100 [UserOwnedStock.ofStock apple 5]).sellStock "Apple" 2).2
        = none ∧
    (UserPortfolio.mk 100 [UserOwnedStock.ofStock apple 5]).sellStock "Apple" 9
        = (UserPortfolio.mk 100 [UserOwnedStock.ofStock apple 5],
           some "Not enough quantity.") :=
  ⟨((sellStock_spec (UserPortfolio.mk 100 [UserOwnedStock.ofStock apple 5])
        [] [] (UserOwnedStock.ofStock apple 5) "Apple" 2 rfl (by simp) rfl).1
      (by decide)).1,
   (sellStock_spec (UserPortfolio.mk 100 [UserOwnedStock.ofStock apple 5])
        [] [] (UserOwnedStock.ofStock apple 5) "Apple" 9 rfl (by simp) rfl).2
      (by decide)⟩

/-! ## C7: selling an unknown name -/

/-- C7: when no owned position carries the requested name, `sellStock`
leaves balance and positions unchanged and reports
"Stock not found in portfolio.". -/
theorem sellStock_unknown_name (p : UserPortfolio) (stockName : String) (qty : Int)
    (h : ∀ u ∈ p.ownedStocks, u.name ≠ stockName) :
    p.sellStock stockName qty = (p, some "Stock not found in portfolio.") := by
  simp only [UserPortfolio.sellStock,
    sellFrom_notFound p.ownedStocks stockName qty h, add_zero]

/-- Witness for `sellStock_unknown_name`: selling from the empty initial
portfolio. -/
theorem sellStock_unknown_name_witness :
    initialPortfolio.sellStock "Tesla" 1
      = (initialPortfolio, some "Stock not found in portfolio.") :=
  sellStock_unknown_name initialPortfolio "Tesla" 1 (by simp [initialPortfolio])

/-! ## C9: negative buy quantities are accepted -/

/-- C9: `buyStock` has no lower bound on the quantity: with positive price,
nonnegative balance and negative `qty`, the insufficient-balance check passes
(the total is negative), the balance grows by `price * |qty|`, and for an
instrument not yet owned a new position with the negative quantity is
appended. -/
theorem buyStock_negative_quantity (p : UserPortfolio) (s : SimStock) (qty : Int)
    (hb : 0 ≤ p.balance) (hp : 0 < s.currentPrice) (hq : qty < 0) :
    (p.buyStock s qty).2 = none ∧
    (p.buyStock s qty).1.balance = p.balance + s.currentPrice * ((-qty : ℤ) : ℚ) ∧
    ((∀ u ∈ p.ownedStocks, u.name ≠ s.name) →
       (p.buyStock s qty).1.ownedStocks
         = p.ownedStocks ++ [UserOwnedStock.ofStock s qty]) := by
  have hqq : ((qty : ℤ) : ℚ) < 0 := by exact_mod_cast hq
  have htot : s.currentPrice * ((qty : ℤ) : ℚ) < 0 := mul_neg_of_pos_of_neg hp hqq
  have hnot : ¬ p.balance < s.currentPrice * ((qty : ℤ) : ℚ) :=
    not_lt.mpr (le_trans (le_of_lt htot) hb)
  refine ⟨?_, ?_, ?_⟩
  · simp [UserPortfolio.buyStock, hnot]
  · simp only [UserPortfolio.buyStock, if_neg hnot]
    push_cast
    ring
  · intro hnew
    simp only [UserPortfolio.buyStock, if_neg hnot]
    exact buyInto_notFound p.ownedStocks s qty hnew

/-- Witness for `buyStock_negative_quantity`: buying -3 Apple shares from the
initial portfolio. -/
theorem buyStock_negative_quantity_witness :
    (initialPortfolio.buyStock apple (-3)).2 = none ∧
    (initialPortfolio.buyStock apple (-3)).1.balance
      = initialPortfolio.balance + apple.currentPrice * ((-(-3 : ℤ) : ℤ) : ℚ) ∧
    (initialPortfolio.buyStock apple (-3)).1.ownedStocks
      = initialPortfolio.ownedStocks ++ [UserOwnedStock.ofStock apple (-3)] :=
  ⟨(buyStock_negative_quantity initialPortfolio apple (-3)
      (by norm_num [initialPortfolio]) (by norm_num [apple, SimStock.make])
      (by norm_num)).1,
   (buyStock_negative_quantity initialPortfolio apple (-3)
      (by norm_num [initialPortfolio]) (by norm_num [apple, SimStock.make])
      (by norm_num)).2.1,
   (buyStock_negative_quantity initialPortfolio apple (-3)
      (by norm_num [initialPortfolio]) (by norm_num [apple, SimStock.make])
      (by norm_num)).2.2 (by simp [initialPortfolio])⟩

/-! ## C8: the buy menu validates the entered id -/

/-- C8: the buy branch of the menu indexes the market (at position id - 1)
exactly when `1 ≤ id ≤ marketSize`; any other id yields "Invalid ID." and an
unchanged portfolio. -/
theorem marketBuy_id_validation (market : List SimStock) (port : UserPortfolio)
    (id qty : Int) :
    (1 ≤ id → id ≤ (market.length : Int) →
       ∃ s, market.get? (id - 1).toNat = some s ∧
            marketBuy market port id qty = port.buyStock s qty) ∧
    (¬ (1 ≤ id ∧ id ≤ (market.length : Int)) →
       marketBuy market port id qty = (port, some "Invalid ID.")) := by
  constructor
  · intro h1 h2
    have hlt : (id - 1).toNat < market.length := by omega
    refine ⟨market.get ⟨(id - 1).toNat, hlt⟩, List.get?_eq_get hlt, ?_⟩
    unfold marketBuy
    rw [if_pos ⟨h1, h2⟩, List.get?_eq_get hlt]
  · intro h
    unfold marketBuy
    rw [if_neg h]

/-- Witness for `marketBuy_id_validation`: a one-stock market; id 1 buys the
stock, id 5 is rejected. -/
theorem marketBuy_id_validation_witness :
    (∃ s, [apple].get? ((1 : Int) - 1).toNat = some s ∧
          marketBuy [apple] initialPortfolio 1 2 = initialPortfolio.buyStock s 2) ∧
    marketBuy [apple] initialPortfolio 5 2 = (initialPortfolio, some "Invalid ID.") :=
  ⟨(marketBuy_id_validation [apple] initialPortfolio 1 2).1 (by decide) (by decide),
   (marketBuy_id_validation [apple] initialPortfolio 5 2).2 (by decide)⟩

/-! ## C1: zero-quantity positions -/

/-- C1 counterexample: buying 0 shares of a not-yet-owned instrument passes
the balance check (total 0) and pushes a brand-new position with quantity 0,
so the portfolio does retain a quantity-0 position. -/
theorem buy_zero_quantity_retained :
    ¬ (∀ u ∈ (initialPortfolio.buyStock apple 0).1.ownedStocks, u.quantity ≠ 0) := by
  have hres : (initialPortfolio.buyStock apple 0).1.ownedStocks
      = [UserOwnedStock.ofStock apple 0] := by
    norm_num [UserPortfolio.buyStock, initialPortfolio, apple, SimStock.make, buyInto]
  intro hall
  exact hall (UserOwnedStock.ofStock apple 0)
    (by rw [hres]; exact List.mem_singleton.mpr rfl) rfl

/-- The buy loop keeps all quantities positive when the bought quantity is
positive. -/
theorem buyInto_pos (l : List UserOwnedStock) (s : SimStock) (qty : Int)
    (hq : 0 < qty) (h : ∀ u ∈ l, 0 < u.quantity) :
    ∀ u ∈ buyInto l s qty, 0 < u.quantity := by
  induction l with
  | nil =>
      intro u hu
      simp only [buyInto, List.mem_singleton] at hu
      subst hu
      exact hq
  | cons v rest ih =>
      by_cases hv : v.name = s.name
      · intro u hu
        simp only [buyInto, if_pos hv, List.mem_cons] at hu
        rcases hu with hu | hu
        · subst hu
          have hvpos : 0 < v.quantity := h v (List.mem_cons_self v rest)
          simp only [UserOwnedStock.buy]
          omega
        · exact h u (List.mem_cons_of_mem v hu)
      · intro u hu
        simp only [buyInto, if_neg hv, List.mem_cons] at hu
        rcases hu with hu | hu
        · subst hu
          exact h u (List.mem_cons_self u rest)
        · exact ih (fun w hw => h w (List.mem_cons_of_mem v hw)) u hu

/-- The sell loop keeps all quantities positive (the position is erased
exactly when it reaches 0). -/
theorem sellFrom_pos (l : List UserOwnedStock) (stockName : String) (qty : Int)
    (h : ∀ u ∈ l, 0 < u.quantity) :
    ∀ u ∈ (sellFrom l stockName qty).1, 0 < u.quantity := by
  induction l with
  | nil =>
      intro u hu
      simp [sellFrom] at hu
  | cons v rest ih =>
      by_cases hv : v.name = stockName
      · by_cases hq : qty ≤ v.quantity
        · by_cases h0 : v.quantity - qty = 0
          · intro u hu
            simp only [sellFrom, if_pos hv, if_pos hq] at hu
            rw [if_pos h0] at hu
            exact h u (List.mem_cons_of_mem v hu)
          · intro u hu
            simp only [sellFrom, if_pos hv, if_pos hq] at hu
            rw [if_neg h0] at hu
            rcases List.mem_cons.mp hu with hu | hu
            · subst hu
              show 0 < v.quantity - qty
              omega
            · exact h u (List.mem_cons_of_mem v hu)
        · intro u hu
          simp only [sellFrom, if_pos hv, if_neg hq] at hu
          exact h u hu
      · intro u hu
        simp only [sellFrom, if_neg hv] at hu
        rcases List.mem_cons.mp hu with hu | hu
        · subst hu
          exact h u (List.mem_cons_self u rest)
        · exact ih (fun w hw => h w (List.mem_cons_of_mem v hw)) u hu

/-- C1 amended: from a state where every position has positive quantity,
`sellStock` (any quantity) and `buyStock` with positive quantity never leave
a quantity-0 (or negative) position; the unrestricted claim fails, because a
buy of quantity 0 of a not-yet-owned instrument retains a quantity-0 position
(`buy_zero_quantity_retained`). -/
theorem positions_positive_amended (p : UserPortfolio) (s : SimStock)
    (stockName : String) (qtyB qtyS : Int)
    (h : ∀ u ∈ p.ownedStocks, 0 < u.quantity) :
    (0 < qtyB → ∀ u ∈ (p.buyStock s qtyB).1.ownedStocks, 0 < u.quantity) ∧
    (∀ u ∈ (p.sellStock stockName qtyS).1.ownedStocks, 0 < u.quantity) := by
  constructor
  · intro hq
    by_cases hlt : p.balance < s.currentPrice * ((qtyB : ℤ) : ℚ)
    · simpa [UserPortfolio.buyStock, hlt] using h
    · simp only [UserPortfolio.buyStock, if_neg hlt]
      exact buyInto_pos p.ownedStocks s qtyB hq h
  · simp only [UserPortfolio.sellStock]
    exact sellFrom_pos p.ownedStocks stockName qtyS h

/-- Witness for `positions_positive_amended`: a portfolio holding 5 Apple
shares; buying 2 more and selling all 5 both leave only positive
quantities. -/
theorem positions_positive_amended_witness :
    (∀ u ∈ ((UserPortfolio.mk 100 [UserOwnedStock.ofStock apple 5]).buyStock
        apple 2).1.ownedStocks, 0 < u.quantity) ∧
    (∀ u ∈ ((UserPortfolio.mk 100 [UserOwnedStock.ofStock apple 5]).sellStock
        "Apple" 5).1.ownedStocks, 0 < u.quantity) :=
  ⟨(positions_positive_amended (UserPortfolio.mk 100 [UserOwnedStock.ofStock apple 5])
      apple "Apple" 2 5 (by decide)).1 (by norm_num),
   (positions_positive_amended (UserPortfolio.mk 100 [UserOwnedStock.ofStock apple 5])
      apple "Apple" 2 5 (by decide)).2⟩

/-! ## C10: owned position names stay pairwise distinct -/

/-- The buy loop either keeps the name list (a match was merged) or appends
the one new name. -/
theorem buyInto_names (l : List UserOwnedStock) (s : SimStock) (qty : Int) :
    (buyInto l s qty).map UserOwnedStock.name
      = if s.name ∈ l.map UserOwnedStock.name then l.map UserOwnedStock.name
        else l.map UserOwnedStock.name ++ [s.name] := by
  induction l with
  | nil => simp [buyInto, UserOwnedStock.ofStock]
  | cons v rest ih =>
      by_cases hv : v.name = s.name
      · simp [buyInto, if_pos hv, UserOwnedStock.buy, hv]
      · simp only [buyInto, if_neg hv, List.map_cons, ih]
        by_cases hm : s.name ∈ rest.map UserOwnedStock.name
        · simp [hm, Ne.symm hv]
        · simp [hm, Ne.symm hv]

/-- The buy loop preserves distinctness of the owned names. -/
theorem buyInto_names_nodup (l : List UserOwnedStock) (s : SimStock) (qty : Int)
    (h : (l.map UserOwnedStock.name).Nodup) :
    ((buyInto l s qty).map UserOwnedStock.name).Nodup := by
  rw [buyInto_names]
  by_cases hm : s.name ∈ l.map UserOwnedStock.name
  · simpa [hm]
  · simp [hm, List.nodup_append, h]

/-- The sell loop only ever drops or relabels-in-place, so the resulting
name list is a sublist of the original one. -/
theorem sellFrom_names_sublist (l : List UserOwnedStock) (stockName : String)
    (qty : Int) :
    ((sellFrom l stockName qty).1.map UserOwnedStock.name).Sublist
      (l.map UserOwnedStock.name) := by
  induction l with
  | nil => simp [sellFrom]
  | cons v rest ih =>
      by_cases hv : v.name = stockName
      · by_cases hq : qty ≤ v.quantity
        · by_cases h0 : v.quantity - qty = 0
          · simp only [sellFrom, if_pos hv, if_pos hq]
            rw [if_pos h0]
            exact (List.map_cons UserOwnedStock.name v rest) ▸
              List.sublist_cons_self v.name (rest.map UserOwnedStock.name)
          · simp only [sellFrom, if_pos hv, if_pos hq]
            rw [if_neg h0]
            simp
        · simp [sellFrom, if_pos hv, if_neg hq]
      · simp only [sellFrom, if_neg hv, List.map_cons]
        exact List.Sublist.cons₂ v.name ih

/-- The update loop renames nothing. -/
theorem updateAll_names (l : List UserOwnedStock) (draws : Nat → Int) :
    (updateAll l draws).map UserOwnedStock.name = l.map UserOwnedStock.name := by
  induction l generalizing draws with
  | nil => rfl
  | cons v rest ih => simp [updateAll, UserOwnedStock.updatePrice, ih]

/-- C10: in every portfolio state reachable from the initial (empty)
portfolio by buyStock, sellStock and updatePrices, the owned position names
are pairwise distinct. -/
theorem reachable_names_nodup (p : UserPortfolio) (h : Reachable p) :
    (p.ownedStocks.map UserOwnedStock.name).Nodup := by
  induction h with
  | init => simp [initialPortfolio]
  | @buy q s qty _ ih =>
      by_cases hlt : q.balance < s.currentPrice * ((qty : ℤ) : ℚ)
      · simpa [UserPortfolio.buyStock, hlt] using ih
      · simp only [UserPortfolio.buyStock, if_neg hlt]
        exact buyInto_names_nodup _ s qty ih
  | sell stockName qty _ ih =>
      simp only [UserPortfolio.sellStock]
      exact (sellFrom_names_sublist _ stockName qty).nodup ih
  | update draws _ ih =>
      simp only [UserPortfolio.updatePrices]
      rw [updateAll_names]
      exact ih

/-- Witness for `reachable_names_nodup`: the state after one buy from the
initial portfolio. -/
theorem reachable_names_nodup_witness :
    (((initialPortfolio.buyStock apple 2).1).ownedStocks.map
        UserOwnedStock.name).Nodup :=
  reachable_names_nodup (initialPortfolio.buyStock apple 2).1
    (Reachable.buy apple 2 Reachable.init)
